import Mathlib

set_option maxRecDepth 4000

/-!
Verification of the repository-context extraction and curation pipeline of the
`code-readme-writer` project (scripts/prepare_data.py, scripts/inference.py,
scripts/evaluate.py).

The Python source is shallowly embedded: strings are Lean `String`s operated on
through their underlying `List Char` (matching Python's view of `str` as a
sequence of code points); network and filesystem reads are abstracted as a
content oracle `String → Option String` (`none` models a failed fetch / read /
decode, exactly the cases the source skips); HTTP statuses are plain `Nat`s.
Case conversion and whitespace predicates are modelled for the ASCII range,
which is the range exercised by the source's fixed constant sets and by every
input considered here.
-/

/-! ## Python string primitives (List Char level) -/

/-- Whitespace characters of Python `str.split()` / `str.strip()` (ASCII range). -/
def isPySpace (c : Char) : Bool :=
  c = ' ' || c = '\t' || c = '\n' || c = '\r' || c = '\x0b' || c = '\x0c'

/-- Python `str.strip()`: drop leading and trailing whitespace. -/
def pyStrip (l : List Char) : List Char :=
  ((l.dropWhile isPySpace).reverse.dropWhile isPySpace).reverse

/-- Python `str.split(sep)` for a one-character separator: keeps empty pieces,
`split` of the empty string is one empty piece. -/
def splitOnChar (sep : Char) : List Char → List (List Char)
  | [] => [[]]
  | c :: rest =>
    match splitOnChar sep rest with
    | [] => [[c]]
    | r :: rs => if c = sep then [] :: r :: rs else (c :: r) :: rs

/-- The scanning loop of Python `str.split()` (no argument), with the current
word accumulated in reverse: emits the maximal whitespace-delimited words. -/
def pyWordsGo (cur : List Char) : List Char → List (List Char)
  | [] => if cur.isEmpty then [] else [cur.reverse]
  | c :: rest =>
    if isPySpace c then
      if cur.isEmpty then pyWordsGo [] rest else cur.reverse :: pyWordsGo [] rest
    else pyWordsGo (c :: cur) rest

/-- Python `str.split()` (no argument): maximal whitespace-delimited words. -/
def pyWords (l : List Char) : List (List Char) := pyWordsGo [] l

/-- The scanning loop of Python `str.count(sub)`: `skip` characters remain of
a previously counted occurrence (matches are non-overlapping, so no match is
attempted inside one). -/
def countSubGo (needle : List Char) (skip : Nat) : List Char → Nat
  | [] => 0
  | c :: rest =>
    match skip with
    | n + 1 => countSubGo needle n rest
    | 0 =>
      if needle.isPrefixOf (c :: rest) then
        1 + countSubGo needle (needle.length - 1) rest
      else countSubGo needle 0 rest

/-- Python `str.count(sub)`: number of non-overlapping occurrences, scanning
left to right. -/
def countSub (needle : List Char) (l : List Char) : Nat := countSubGo needle 0 l

/-- Python `sub in s` (substring containment). -/
def containsSub (needle : List Char) : List Char → Bool
  | [] => needle.isEmpty
  | c :: rest => needle.isPrefixOf (c :: rest) || containsSub needle rest

/-- Python `str.join` on a list of strings. -/
def pyJoin (sep : String) : List String → String
  | [] => ""
  | [x] => x
  | x :: y :: xs => x ++ sep ++ pyJoin sep (y :: xs)

/-- Python `str.lower()` (ASCII range). -/
def pyLower (s : String) : String := String.mk (s.data.map Char.toLower)

/-- `os.path.basename` for `/`-separated paths. -/
def pyBasename (path : String) : String :=
  String.mk ((path.data.reverse.takeWhile (fun c => c ≠ '/')).reverse)

/-- The extension part of `os.path.splitext`: the suffix of the basename from
its last `.`, except that leading dots of the basename never start an
extension. -/
def pySplitextExt (path : String) : String :=
  let rest := (pyBasename path).data.dropWhile (fun c => c = '.')
  if '.' ∈ rest then
    String.mk ('.' :: (rest.reverse.takeWhile (fun c => c ≠ '.')).reverse)
  else ""

/-- Count of occurrences of one character (Python `str.count` of a
one-character needle). -/
def countChar (c : Char) (l : List Char) : Nat := (l.filter (fun x => x = c)).length

/-! ## A miniature regex engine

Just enough of Python `re` for the exact patterns the source uses: literal
characters, the `.` wildcard (any character except newline), and the lazy
`.*?`. Matching follows the backtracking order of Python's engine: a lazy
star consumes as few characters as possible such that the remainder of the
pattern can complete. -/

/-- One token of the restricted pattern language. -/
inductive RTok where
  | lit (c : Char)
  | anyc
  | lazyStar
deriving DecidableEq

/-- The lazy-star loop: consume as few characters as possible (none of them
newlines) such that the continuation `k` — matching the rest of the pattern —
succeeds. -/
def tryStarAux (k : List Char → Option Nat) : List Char → Option Nat
  | [] => k []
  | x :: xs =>
    match k (x :: xs) with
    | some n => some n
    | none => if x ≠ '\n' then (tryStarAux k xs).map (· + 1) else none

/-- `rmatch pat l` : length of the match of `pat` at the start of `l`
(Python engine order, lazy stars minimized leftmost-first), or `none`. -/
def rmatch : List RTok → List Char → Option Nat
  | [], _ => some 0
  | .lit c :: ps, l =>
    match l with
    | [] => none
    | x :: xs => if x = c then (rmatch ps xs).map (· + 1) else none
  | .anyc :: ps, l =>
    match l with
    | [] => none
    | x :: xs => if x ≠ '\n' then (rmatch ps xs).map (· + 1) else none
  | .lazyStar :: ps, l => tryStarAux (rmatch ps) l

/-- Python `re.search(pat, l)` as a Boolean: does the pattern match at some
position? -/
def rsearch (pat : List RTok) : List Char → Bool
  | [] => (rmatch pat []).isSome
  | c :: rest => (rmatch pat (c :: rest)).isSome || rsearch pat rest

/-- A search over an alternation of patterns, `re.search("(a|b|c)")`. -/
def rsearchAny (pats : List (List RTok)) (l : List Char) : Bool :=
  pats.any (fun p => rsearch p l)

/-- The scanning loop of `re.sub(pat, "", l)`: `skip` characters remain of a
previously deleted match (scanning resumes after a match, so no match is
attempted inside one). -/
def resubGo (pat : List RTok) (skip : Nat) : List Char → List Char
  | [] => []
  | c :: rest =>
    match skip with
    | n + 1 => resubGo pat n rest
    | 0 =>
      match rmatch pat (c :: rest) with
      | some (n + 1) => resubGo pat n rest
      | _ => c :: resubGo pat 0 rest

/-- Python `re.sub(pat, "", l)`: delete every non-overlapping leftmost match.
A zero-width match is treated as no match (the patterns used here all start
with a literal, so they can never match zero characters). -/
def resub (pat : List RTok) (l : List Char) : List Char := resubGo pat 0 l

/-- All-literal pattern from a string. -/
def lits (s : String) : List RTok := s.data.map RTok.lit

/-! ## Shared constants of prepare_data.py and inference.py -/

/-- `CODE_EXTENSIONS` (identical constant in prepare_data.py and inference.py). -/
def CODE_EXTENSIONS : List String :=
  [".py", ".js", ".ts", ".jsx", ".tsx", ".java", ".go", ".rs",
   ".cpp", ".c", ".h", ".rb", ".php", ".swift", ".kt", ".scala",
   ".cs", ".r", ".jl", ".lua", ".sh", ".bash", ".zsh"]

/-- `IMPORTANT_FILES` (identical constant in prepare_data.py and inference.py). -/
def IMPORTANT_FILES : List String :=
  ["setup.py", "setup.cfg", "pyproject.toml", "package.json",
   "cargo.toml", "go.mod", "build.gradle", "pom.xml",
   "makefile", "dockerfile", "docker-compose.yml",
   "requirements.txt", "gemfile", ".env.example"]

/-- `MAX_FILE_CHARS` -/
def MAX_FILE_CHARS : Nat := 1500

/-- `MAX_TOTAL_CODE_CHARS` -/
def MAX_TOTAL_CODE_CHARS : Nat := 6000

/-- `MAX_README_CHARS` -/
def MAX_README_CHARS : Nat := 4000

/-- Needle `"node_modules"`. -/
def nodeModulesNeedle : List Char := "node_modules".data

/-- Needle `"__pycache__"`. -/
def pycacheNeedle : List Char := "__pycache__".data

/-- Needle `".egg-info"`. -/
def eggInfoNeedle : List Char := ".egg-info".data

/-- One entry of the GitHub tree API response: `item["path"]` and
`item["type"]` (`"blob"`, `"tree"`, ...). -/
structure TreeItem where
  path : String
  type : String
deriving DecidableEq

/-- Lexicographic (code-point) order on character lists, Python's `<=` on
strings. -/
def lexLe (a : List Char) : List Char → Bool
  | [] =>
    match a with
    | [] => true
    | _ :: _ => false
  | y :: ys =>
    match a with
    | [] => true
    | x :: xs => if x = y then lexLe xs ys else decide (x < y)

/-- Python `<=` on strings (code-point lexicographic). -/
def strLe (a b : String) : Bool := lexLe a.data b.data

/-- Insertion into an ascending (code-point order) sorted list. -/
def insertSorted (x : String) : List String → List String
  | [] => [x]
  | y :: ys => if strLe x y then x :: y :: ys else y :: insertSorted x ys

/-- Python `sorted` on strings: ascending code-point (lexicographic) order.
Strings carry no satellite data, so insertion sort produces exactly the list
Python's stable sort produces. -/
def sortStr : List String → List String
  | [] => []
  | x :: xs => insertSorted x (sortStr xs)

/-! ## prepare_data.py -/

/-- `get_repo_tree` (prepare_data.py): the HTTP transport is abstracted to the
response status and the parsed `"tree"` body; a non-200 status returns `None`,
otherwise the body. -/
def get_repo_tree (status : Nat) (body : List TreeItem) : Option (List TreeItem) :=
  if status ≠ 200 then none else some body

/-- `part.startswith(".")` on one path segment. -/
def startsDot : List Char → Bool
  | [] => false
  | c :: _ => c = '.'

/-- The filter condition inside `build_file_tree_string` (prepare_data.py):
kind is blob or tree, no path segment starts with a dot, and the path contains
none of `node_modules`, `__pycache__`, `.egg-info`. -/
def prepareTreeKeep (item : TreeItem) : Bool :=
  (item.type == "blob" || item.type == "tree")
  && !((splitOnChar '/' item.path.data).any startsDot)
  && !(containsSub nodeModulesNeedle item.path.data)
  && !(containsSub pycacheNeedle item.path.data)
  && !(containsSub eggInfoNeedle item.path.data)

/-- The sorted, filtered `paths` local of `build_file_tree_string`. -/
def fileTreePaths (tree : List TreeItem) : List String :=
  sortStr (tree.filterMap (fun item => if prepareTreeKeep item then some item.path else none))

/-- The literal truncation marker appended to an over-long listing. -/
def truncMarker : String := "... (truncated)"

/-- The final `paths` list of `build_file_tree_string` after the 80-entry cap:
first `max_entries` plus the marker when over the cap. -/
def fileTreeLines (tree : List TreeItem) (max_entries : Nat := 80) : List String :=
  let paths := fileTreePaths tree
  if max_entries < paths.length then paths.take max_entries ++ [truncMarker] else paths

/-- `build_file_tree_string` (prepare_data.py). -/
def build_file_tree_string (tree : List TreeItem) (max_entries : Nat := 80) : String :=
  pyJoin "\n" (fileTreeLines tree max_entries)

/-- Condition of the important-file pass of `select_key_files`. -/
def isImportantBlob (item : TreeItem) : Bool :=
  item.type == "blob" && IMPORTANT_FILES.contains (pyLower (pyBasename item.path))

/-- Condition of the code-file pass of `select_key_files`: blob, lower-cased
extension in `CODE_EXTENSIONS`, and path depth (count of `/`) at most 2. -/
def isCodeBlob (item : TreeItem) : Bool :=
  item.type == "blob" && CODE_EXTENSIONS.contains (pyLower (pySplitextExt item.path))
  && countChar '/' item.path.data ≤ 2

/-- First pass of `select_key_files`: paths of important config blobs, in tree
order. -/
def importantPass (tree : List TreeItem) : List String :=
  tree.filterMap (fun item => if isImportantBlob item then some item.path else none)

/-- Second pass of `select_key_files`: paths of near-top-level code blobs, in
tree order. -/
def codePass (tree : List TreeItem) : List String :=
  tree.filterMap (fun item => if isCodeBlob item then some item.path else none)

/-- The dedup loop of `select_key_files` (`seen` set plus `deduped` list,
keeping first occurrences). -/
def dedupKeep (seen : List String) : List String → List String
  | [] => []
  | p :: ps => if p ∈ seen then dedupKeep seen ps else p :: dedupKeep (p :: seen) ps

/-- `select_key_files` (prepare_data.py): important pass, then code pass,
deduplicated preserving order, first 10. -/
def select_key_files (tree : List TreeItem) : List String :=
  (dedupKeep [] (importantPass tree ++ codePass tree)).take 10

/-- One formatted snippet block `"--- {path} ---\n{truncated}"`. -/
def snippetBlock (path : String) (truncated : List Char) : String :=
  "--- " ++ path ++ " ---\n" ++ String.mk truncated

/-- The fetch-and-accumulate loop of `build_code_snippets` (prepare_data.py),
with the running `total_chars` accumulator made explicit. `contents` is the
per-path fetch oracle (`none` = non-200 raw download, skipped silently). -/
def snippetsGo (contents : String → Option String) : List String → Nat → List String × Nat
  | [], total => ([], total)
  | path :: rest, total =>
    if MAX_TOTAL_CODE_CHARS ≤ total then ([], total)
    else
      match contents path with
      | none => snippetsGo contents rest total
      | some content =>
        let truncated := content.data.take MAX_FILE_CHARS
        let r := snippetsGo contents rest (total + truncated.length)
        (snippetBlock path truncated :: r.1, r.2)

/-- `build_code_snippets` (prepare_data.py). -/
def build_code_snippets (contents : String → Option String) (file_paths : List String) : String :=
  pyJoin "\n\n" (snippetsGo contents file_paths 0).1

/-- The badge pattern of `clean_readme`: a linked badge image, an image span
wrapped in a link span. -/
def badgePat : List RTok :=
  [.lit '[', .lit '!', .lit '[', .lazyStar, .lit ']', .lit '(', .lazyStar, .lit ')',
   .lit ']', .lit '(', .lazyStar, .lit ')']

/-- The bare image pattern of `clean_readme`. -/
def imagePat : List RTok :=
  [.lit '!', .lit '[', .lazyStar, .lit ']', .lit '(', .lazyStar, .lit ')']

/-- The newline-collapsing loop of `clean_readme`, carrying the count of
pending consecutive newlines: a finished run of 3 or more is emitted as
exactly 2, shorter runs verbatim. -/
def collapseGo (pending : Nat) : List Char → List Char
  | [] => List.replicate (if 3 ≤ pending then 2 else pending) '\n'
  | c :: rest =>
    if c = '\n' then collapseGo (pending + 1) rest
    else (List.replicate (if 3 ≤ pending then 2 else pending) '\n') ++ c :: collapseGo 0 rest

/-- The whitespace-collapsing substitution of `clean_readme`: every run of 3
or more newlines becomes exactly 2. -/
def collapseNewlines (l : List Char) : List Char := collapseGo 0 l

/-- `clean_readme` (prepare_data.py): remove linked badge images, remove bare
images, collapse newline runs, strip. -/
def clean_readme (readme : String) : String :=
  String.mk (pyStrip (collapseNewlines (resub imagePat (resub badgePat readme.data))))

/-- `is_quality_readme` (prepare_data.py). -/
def is_quality_readme (readme : String) : Bool :=
  if readme.data.length < 200 then false
  else if MAX_README_CHARS < readme.data.length then false
  else if countChar '#' readme.data < 2 then false
  else if (pyWords readme.data).length < 50 then false
  else true

/-- The README names accepted by the lookup loop of `process_repo`
(the whole lower-cased path must match, so only root-level READMEs). -/
def readmeNames : List String := ["readme.md", "readme.rst", "readme.txt", "readme"]

/-- The README lookup loop of `process_repo`: first blob whose lower-cased
path is one of the README names. -/
def findReadmePath (tree : List TreeItem) : Option String :=
  tree.findSome? (fun item =>
    if item.type == "blob" && readmeNames.contains (pyLower item.path)
    then some item.path else none)

/-- The fields of `repo_info` read by `process_repo`. -/
structure RepoInfo where
  owner : String
  name : String
  full_name : String
  stargazers_count : Nat
  language : String

/-- One dataset record as built by `process_repo`. -/
structure CuratedExample where
  repo_name : String
  file_tree : String
  code_snippets : String
  readme_content : String
  stars : Nat
  language : String
deriving DecidableEq

/-- `process_repo` (prepare_data.py). The tree request is abstracted to its
status and parsed body (fed through `get_repo_tree`), and all raw-content
downloads to the oracle `contents`. -/
def process_repo (info : RepoInfo) (treeStatus : Nat) (treeBody : List TreeItem)
    (contents : String → Option String) : Option CuratedExample :=
  match get_repo_tree treeStatus treeBody with
  | none => none
  | some tree =>
    match findReadmePath tree with
    | none => none
    | some readme_path =>
      match contents readme_path with
      | none => none
      | some raw =>
        let readme_content := clean_readme raw
        if is_quality_readme readme_content then
          let file_tree := build_file_tree_string tree
          let key_files := select_key_files tree
          let code_snippets := build_code_snippets contents key_files
          if code_snippets = "" then none
          else some ⟨info.full_name, file_tree, code_snippets, readme_content,
                     info.stargazers_count, info.language⟩
        else none

/-! ## inference.py -/

/-- `requests.Response.raise_for_status`: raises `HTTPError` exactly for
status codes in the 4xx/5xx range. -/
def raiseForStatus (status : Nat) : Except Nat Unit :=
  if 400 ≤ status ∧ status < 600 then Except.error status else Except.ok ()

/-- The tree request of `scan_github_repo` (inference.py): `requests.get`
followed by `resp.raise_for_status()` — a client or server error status
propagates as an exception to the caller, otherwise the parsed body is used. -/
def scanGithubTreeFetch (status : Nat) (body : List TreeItem) : Except Nat (List TreeItem) :=
  match raiseForStatus status with
  | Except.error e => Except.error e
  | Except.ok _ => Except.ok body

/-- The filter condition of the file-tree listing in `scan_github_repo`
(inference.py): like prepare_data's but with no `.egg-info` exclusion. -/
def githubTreeKeep (item : TreeItem) : Bool :=
  (item.type == "blob" || item.type == "tree")
  && !((splitOnChar '/' item.path.data).any startsDot)
  && !(containsSub nodeModulesNeedle item.path.data)
  && !(containsSub pycacheNeedle item.path.data)

/-- The sorted, filtered `paths` local of `scan_github_repo`. -/
def githubTreePaths (tree : List TreeItem) : List String :=
  sortStr (tree.filterMap (fun item => if githubTreeKeep item then some item.path else none))

/-- The `file_tree` string of `scan_github_repo`:
`"\n".join(paths[:80]) + "\n... (truncated)"` when over 80 entries. -/
def githubFileTree (tree : List TreeItem) : String :=
  let paths := githubTreePaths tree
  if 80 < paths.length then pyJoin "\n" (paths.take 80) ++ "\n" ++ truncMarker
  else pyJoin "\n" paths

/-- First selection pass of `scan_github_repo` (important config blobs). -/
def githubFirstPass (tree : List TreeItem) : List String :=
  tree.filterMap (fun item => if isImportantBlob item then some item.path else none)

/-- Second selection pass of `scan_github_repo`: appends each near-top-level
code blob not already in `key_files` (membership checked against the growing
list). -/
def githubSecondPass (key_files : List String) : List TreeItem → List String
  | [] => key_files
  | item :: rest =>
    if isCodeBlob item ∧ item.path ∉ key_files
    then githubSecondPass (key_files ++ [item.path]) rest
    else githubSecondPass key_files rest

/-- The `key_files` selection of `scan_github_repo`. -/
def githubSelect (tree : List TreeItem) : List String :=
  (githubSecondPass (githubFirstPass tree) tree).take 10

/-- The download loop of `scan_github_repo`: per-path raw download abstracted
to the oracle (`none` = status ≠ 200, silently skipped), 1500-character
truncation, running total. -/
def githubSnippetsGo (contents : String → Option String) :
    List String → Nat → List String × Nat
  | [], total => ([], total)
  | path :: rest, total =>
    if MAX_TOTAL_CODE_CHARS ≤ total then ([], total)
    else
      match contents path with
      | none => githubSnippetsGo contents rest total
      | some content =>
        let truncated := content.data.take MAX_FILE_CHARS
        let r := githubSnippetsGo contents rest (total + truncated.length)
        (snippetBlock path truncated :: r.1, r.2)

/-- The (file tree, selection, joined snippets) triple produced by
`scan_github_repo` once the tree has been fetched. -/
def githubExtract (tree : List TreeItem) (contents : String → Option String) :
    String × List String × String :=
  (githubFileTree tree, githubSelect tree,
   pyJoin "\n\n" (githubSnippetsGo contents (githubSelect tree) 0).1)

/-- The `file_tree` string of `scan_local_repo` built from the sorted
`all_files` list: no per-path filtering (directory pruning happened during the
walk), files only. -/
def localFileTree (sorted_files : List String) : String :=
  if 80 < sorted_files.length then pyJoin "\n" (sorted_files.take 80) ++ "\n" ++ truncMarker
  else pyJoin "\n" sorted_files

/-- First selection pass of `scan_local_repo` over the sorted file list. -/
def localFirstPass (files : List String) : List String :=
  files.filter (fun f => IMPORTANT_FILES.contains (pyLower (pyBasename f)))

/-- Second selection pass of `scan_local_repo`: appends each code file of
depth ≤ 2 not already present. -/
def localSecondPass (key_files : List String) : List String → List String
  | [] => key_files
  | f :: rest =>
    if (CODE_EXTENSIONS.contains (pyLower (pySplitextExt f))
        && countChar '/' f.data ≤ 2) ∧ f ∉ key_files
    then localSecondPass (key_files ++ [f]) rest
    else localSecondPass key_files rest

/-- The `key_files` selection of `scan_local_repo` (over the sorted list). -/
def localSelect (sorted_files : List String) : List String :=
  (localSecondPass (localFirstPass sorted_files) sorted_files).take 10

/-- The read loop of `scan_local_repo`: `read_text` abstracted to the oracle
(`none` = OSError/UnicodeDecodeError, silently skipped). -/
def localSnippetsGo (contents : String → Option String) :
    List String → Nat → List String × Nat
  | [], total => ([], total)
  | f :: rest, total =>
    if MAX_TOTAL_CODE_CHARS ≤ total then ([], total)
    else
      match contents f with
      | none => localSnippetsGo contents rest total
      | some content =>
        let truncated := content.data.take MAX_FILE_CHARS
        let r := localSnippetsGo contents rest (total + truncated.length)
        (snippetBlock f truncated :: r.1, r.2)

/-- The (file tree, selection, joined snippets) triple produced by
`scan_local_repo` from the walked file list (paths relative to the root, in
walk order; the function first sorts them). -/
def localExtract (all_files : List String) (contents : String → Option String) :
    String × List String × String :=
  let sorted := sortStr all_files
  (localFileTree sorted, localSelect sorted,
   pyJoin "\n\n" (localSnippetsGo contents (localSelect sorted) 0).1)

/-- The (file tree, selection, joined snippets) triple of the
dataset-collection path (prepare_data.py `process_repo` body). -/
def prepareExtract (tree : List TreeItem) (contents : String → Option String) :
    String × List String × String :=
  (build_file_tree_string tree, select_key_files tree,
   build_code_snippets contents (select_key_files tree))

/-- The file paths a local walk of a repository with the given tree yields:
its blob entries, in tree order (the walk sees only files). -/
def blobPaths (tree : List TreeItem) : List String :=
  tree.filterMap (fun item => if item.type == "blob" then some item.path else none)

/-! ## evaluate.py -/

/-- The record returned by `structural_score` (evaluate.py). -/
structure StructuralScore where
  num_headings : Nat
  num_code_blocks : Nat
  has_install_section : Bool
  has_usage_section : Bool
  has_description : Bool
  num_bullet_points : Nat
  total_length : Nat
  total_lines : Nat
deriving DecidableEq

/-- Alternation `(?i)(install|setup|getting.started)`; case-insensitivity is
realized by lower-casing the text before the search. -/
def installPats : List (List RTok) :=
  [lits "install", lits "setup", lits "getting" ++ [.anyc] ++ lits "started"]

/-- Alternation `(?i)(usage|how.to.use|example|quick.start)`. -/
def usagePats : List (List RTok) :=
  [lits "usage", lits "how" ++ [.anyc] ++ lits "to" ++ [.anyc] ++ lits "use",
   lits "example", lits "quick" ++ [.anyc] ++ lits "start"]

/-- The triple-backtick fence needle. -/
def fenceNeedle : List Char := "```".data

/-- The heading prefix `"#"`. -/
def hashNeedle : List Char := "#".data

/-- The bullet-point prefixes `("-", "*", "•")`. -/
def bulletChars : List Char := "-*•".data

/-- `line.strip().startswith(pre)` for the one-character prefixes used by
`structural_score`. -/
def startsWithAnyOf (cs : List Char) (l : List Char) : Bool :=
  match l with
  | [] => false
  | c :: _ => cs.contains c

/-- `structural_score` (evaluate.py). -/
def structural_score (text : String) : StructuralScore :=
  let lines := splitOnChar '\n' text.data
  let lower := text.data.map Char.toLower
  { num_headings := (lines.filter (fun l => startsWithAnyOf hashNeedle (pyStrip l))).length
    num_code_blocks := countSub fenceNeedle text.data / 2
    has_install_section := rsearchAny installPats lower
    has_usage_section := rsearchAny usagePats lower
    has_description := 100 < text.data.length
    num_bullet_points := (lines.filter (fun l => startsWithAnyOf bulletChars (pyStrip l))).length
    total_length := text.data.length
    total_lines := lines.length }

/-! ## Concrete inputs used by witnesses and counterexamples -/

/-- Per-path size actually admitted by the budget loop for an attempted path:
the truncated (1500-capped) content length, 0 for a failed fetch. -/
def truncSize (contents : String → Option String) (p : String) : Nat :=
  match contents p with
  | none => 0
  | some c => (c.data.take MAX_FILE_CHARS).length

/-- A 6001-character file content. -/
def bigContent : String := String.mk (List.replicate 6001 'a')

/-- An oracle serving `bigContent` for every path. -/
def bigOracle : String → Option String := fun _ => some bigContent

/-- A 1500-character file content. -/
def fullContent : String := String.mk (List.replicate 1500 'x')

/-- An oracle serving `fullContent` for every path. -/
def fullOracle : String → Option String := fun _ => some fullContent

/-- Four file paths. -/
def fourPaths : List String := ["a", "b", "c", "d"]

/-- A minimal `repo_info`. -/
def wInfo : RepoInfo := ⟨"o", "r", "o/r", 0, "Python"⟩

/-- A 199-character string. -/
def r199 : String := String.mk (List.replicate 199 'a')

/-- A 4001-character string. -/
def r4001 : String := String.mk (List.replicate 4001 'a')

/-- A 200-character string with two `#` and 100 whitespace-delimited words. -/
def r200 : String := String.mk (['#', ' ', '#', ' '] ++ (List.replicate 98 ['a', ' ']).flatten)

/-- A tree of 81 identical blob entries. -/
def tree81 : List TreeItem := List.replicate 81 ⟨"a.py", "blob"⟩

/-- The concrete input of the structural-score scenario. -/
def c8Text : String := "# Title\n\nSome text with ```code``` fence.\n- item one\n- item two"

/-- Ten distinct important-file blobs followed by a root-level `.env.example`
blob. -/
def c9Tree : List TreeItem :=
  [⟨"d0/setup.py", "blob"⟩, ⟨"d1/setup.py", "blob"⟩, ⟨"d2/setup.py", "blob"⟩,
   ⟨"d3/setup.py", "blob"⟩, ⟨"d4/setup.py", "blob"⟩, ⟨"d5/setup.py", "blob"⟩,
   ⟨"d6/setup.py", "blob"⟩, ⟨"d7/setup.py", "blob"⟩, ⟨"d8/setup.py", "blob"⟩,
   ⟨"d9/setup.py", "blob"⟩, ⟨".env.example", "blob"⟩]

/-- A tree holding only a root-level `.env.example` blob. -/
def c9SmallTree : List TreeItem := [⟨".env.example", "blob"⟩]

/-- A tree whose single path contains `.egg-info`. -/
def eggTree : List TreeItem := [⟨"pkg.egg-info/a.py", "blob"⟩]

/-- Two code blobs in non-sorted tree order. -/
def baTree : List TreeItem := [⟨"b.py", "blob"⟩, ⟨"a.py", "blob"⟩]

/-- An oracle serving every path its own name as content. -/
def idContents : String → Option String := fun p => some p

/-- A small mixed tree with distinct paths and no `.egg-info`. -/
def wTree4 : List TreeItem := [⟨"src", "tree"⟩, ⟨"b.py", "blob"⟩, ⟨"setup.py", "blob"⟩]

/-- Ten words, 56 characters, no markdown images. -/
def wChunk : String := "alpha beta gamma delta epsilon zeta eta theta iota kappa"

/-- A quality README: already normalized (no badges/images, no 3-newline
runs, stripped), over 200 characters, three `#`, over 50 words. -/
def wReadmeRaw : String :=
  "# demo tool\n\n## notes\n\n" ++ wChunk ++ " " ++ wChunk ++ " " ++ wChunk
  ++ " " ++ wChunk ++ " " ++ wChunk

/-- A tree with a root README and one code file. -/
def wTree10 : List TreeItem := [⟨"README.md", "blob"⟩, ⟨"setup.py", "blob"⟩]

/-- Contents for `wTree10`. -/
def wContents : String → Option String := fun p =>
  if p = "setup.py" then some "print(1)\n"
  else if p = "README.md" then some wReadmeRaw
  else none

/-- The record `process_repo` produces from `wInfo`, `wTree10`, `wContents`. -/
def wEx : CuratedExample :=
  ⟨"o/r", "README.md\nsetup.py", "--- setup.py ---\nprint(1)\n", wReadmeRaw, 0, "Python"⟩

/-! ## Theorems -/

theorem localSnippetsGo_eq (contents : String → Option String) (paths : List String) :
    ∀ total, localSnippetsGo contents paths total = snippetsGo contents paths total := by
  induction paths with
  | nil => intro total; simp [localSnippetsGo, snippetsGo]
  | cons p rest ih =>
    intro total
    simp only [localSnippetsGo, snippetsGo]
    split
    · rfl
    · cases hc : contents p with
      | none => simp only [hc]; exact ih total
      | some c => simp only [hc, ih]

theorem githubSnippetsGo_eq (contents : String → Option String) (paths : List String) :
    ∀ total, githubSnippetsGo contents paths total = snippetsGo contents paths total := by
  induction paths with
  | nil => intro total; simp [githubSnippetsGo, snippetsGo]
  | cons p rest ih =>
    intro total
    simp only [githubSnippetsGo, snippetsGo]
    split
    · rfl
    · cases hc : contents p with
      | none => simp only [hc]; exact ih total
      | some c => simp only [hc, ih]

theorem snippetsGo_total_le (contents : String → Option String) (paths : List String) :
    ∀ total, (snippetsGo contents paths total).2 ≤ max total 7499 := by
  induction paths with
  | nil => intro total; simp [snippetsGo]
  | cons p rest ih =>
    intro total
    simp only [snippetsGo]
    split
    · exact le_max_left _ _
    · rename_i hlt
      rw [MAX_TOTAL_CODE_CHARS] at hlt
      cases hc : contents p with
      | none => exact le_trans (ih total) (le_refl _)
      | some c =>
        simp only [hc]
        have htr : (c.data.take MAX_FILE_CHARS).length ≤ 1500 := by
          rw [List.length_take, MAX_FILE_CHARS]; exact min_le_left _ _
        have hre := ih (total + (c.data.take MAX_FILE_CHARS).length)
        have hle : total + (c.data.take MAX_FILE_CHARS).length ≤ 7499 := by omega
        have : max (total + (c.data.take MAX_FILE_CHARS).length) 7499 = 7499 :=
          Nat.max_eq_right hle
        rw [this] at hre
        exact le_trans hre (le_max_right _ _)

/-- Claim C1: for every selection of file paths and every assignment of
contents, the budget loop's running total of admitted truncated snippet
characters (in both the dataset-collection loop `build_code_snippets` and the
local-scan loop of `scan_local_repo`) is at most 6000 + 1500: the total can
exceed the 6000 budget by at most one file's 1500-character cap. -/
theorem claim_C1_budget_overshoot (contents : String → Option String) (paths : List String) :
    (snippetsGo contents paths 0).2 ≤ MAX_TOTAL_CODE_CHARS + MAX_FILE_CHARS ∧
    (localSnippetsGo contents paths 0).2 ≤ MAX_TOTAL_CODE_CHARS + MAX_FILE_CHARS := by
  have h := snippetsGo_total_le contents paths 0
  rw [Nat.max_eq_right (Nat.zero_le _)] at h
  rw [MAX_TOTAL_CODE_CHARS, MAX_FILE_CHARS, localSnippetsGo_eq]
  exact ⟨by omega, by omega⟩

theorem snippetsGo_total_lower (contents : String → Option String) (paths : List String) :
    ∀ total, MAX_TOTAL_CODE_CHARS ≤ total + (paths.map (truncSize contents)).sum →
      MAX_TOTAL_CODE_CHARS ≤ (snippetsGo contents paths total).2 := by
  induction paths with
  | nil => intro total h; simpa [snippetsGo] using h
  | cons p rest ih =>
    intro total h
    simp only [snippetsGo]
    split
    · assumption
    · rename_i hlt
      cases hc : contents p with
      | none =>
        apply ih
        simpa [truncSize, hc] using h
      | some c =>
        simp only [hc]
        apply ih
        have ht : truncSize contents p = (c.data.take MAX_FILE_CHARS).length := by
          simp [truncSize, hc]
        rw [List.map_cons, List.sum_cons, ht] at h
        omega

theorem snippetsGo_single (contents : String → Option String) (p : String) (c : String)
    (h : contents p = some c) :
    (snippetsGo contents [p] 0).2 = (c.data.take MAX_FILE_CHARS).length := by
  simp only [snippetsGo, h]
  rw [if_neg (by rw [MAX_TOTAL_CODE_CHARS]; omega)]
  omega

theorem bigContent_data : bigContent.data = List.replicate 6001 'a' := rfl

/-- Claim C2 counterexample: a single selected path whose fetch succeeds with
6001 characters of content. The cumulative untruncated size exceeds 6000,
yet the budget loop's final total is 1500 < 6000, because per-file truncation
discards everything past 1500 characters. -/
theorem claim_C2_counterexample :
    (∀ p ∈ ["a.py"], (bigOracle p).isSome) ∧
    MAX_TOTAL_CODE_CHARS < (["a.py"].map (fun p => ((bigOracle p).getD "").data.length)).sum ∧
    (snippetsGo bigOracle ["a.py"] 0).2 < MAX_TOTAL_CODE_CHARS := by
  have hlen : ((bigOracle "a.py").getD "").data.length = 6001 := by
    show bigContent.data.length = 6001
    rw [bigContent_data, List.length_replicate]
  refine ⟨by intro p _; exact rfl, ?_, ?_⟩
  · simp only [List.map_cons, List.map_nil, List.sum_cons, List.sum_nil, hlen,
      MAX_TOTAL_CODE_CHARS]
    omega
  · rw [snippetsGo_single bigOracle "a.py" bigContent rfl, bigContent_data,
      List.length_take, List.length_replicate, MAX_FILE_CHARS, MAX_TOTAL_CODE_CHARS]
    omega

/-- Claim C2 (amended): when every selected file fetches successfully, the
budget loop's final total is at least 6000 whenever the selection's cumulative
TRUNCATED size (each file capped at 1500 characters) is at least 6000. (As
stated over untruncated sizes the claim is false — see the counterexample.) -/
theorem claim_C2_amended (contents : String → Option String) (paths : List String)
    (_hok : ∀ p ∈ paths, (contents p).isSome)
    (hsum : MAX_TOTAL_CODE_CHARS ≤ (paths.map (truncSize contents)).sum) :
    MAX_TOTAL_CODE_CHARS ≤ (snippetsGo contents paths 0).2 := by
  apply snippetsGo_total_lower
  simpa using hsum

/-- Witness for C2 (amended): four successfully fetched files of 1500
characters each reach a total of at least 6000. -/
theorem claim_C2_witness : MAX_TOTAL_CODE_CHARS ≤ (snippetsGo fullOracle fourPaths 0).2 := by
  have ht : ∀ p, truncSize fullOracle p = 1500 := by
    intro p
    show (fullContent.data.take MAX_FILE_CHARS).length = 1500
    rw [show fullContent.data = List.replicate 1500 'x' from rfl,
      List.length_take, List.length_replicate, MAX_FILE_CHARS]
    omega
  apply claim_C2_amended fullOracle fourPaths
  · intro p _; exact rfl
  · simp only [fourPaths, List.map_cons, List.map_nil, ht, List.sum_cons, List.sum_nil,
      MAX_TOTAL_CODE_CHARS]
    omega

/-- Claim C3 counterexample: a 404 on the tree-listing request. The
dataset-collection call site (`get_repo_tree`) soft-skips, but the
interactive remote-scan call site (`scan_github_repo`, which calls
`resp.raise_for_status()`) raises a fatal `HTTPError` to the caller — so it
is not true that every tree-fetching call site yields "no snapshot" without
a fatal error. -/
theorem claim_C3_counterexample :
    scanGithubTreeFetch 404 [] = Except.error 404 ∧ get_repo_tree 404 [] = none := by
  constructor <;> rfl

/-- Claim C3 (amended): on a non-200 tree-listing status, the
dataset-collection call site (`get_repo_tree`, and hence `process_repo`)
yields no snapshot and softly skips the repository; the interactive
remote-scan call site instead raises the error status to the caller for any
4xx/5xx status. -/
theorem claim_C3_amended (status : Nat) (body : List TreeItem) (info : RepoInfo)
    (contents : String → Option String) :
    (status ≠ 200 →
      get_repo_tree status body = none ∧ process_repo info status body contents = none) ∧
    (400 ≤ status → status < 600 → scanGithubTreeFetch status body = Except.error status) := by
  constructor
  · intro h
    have hg : get_repo_tree status body = none := by rw [get_repo_tree, if_pos h]
    exact ⟨hg, by rw [process_repo, hg]⟩
  · intro h1 h2
    rw [scanGithubTreeFetch, raiseForStatus, if_pos ⟨h1, h2⟩]

/-- Witness for C3 (amended), at status 500. -/
theorem claim_C3_witness :
    get_repo_tree 500 [] = none ∧ process_repo wInfo 500 [] (fun _ => none) = none ∧
    scanGithubTreeFetch 500 [] = Except.error 500 := by
  have h := claim_C3_amended 500 [] wInfo (fun _ => none)
  exact ⟨(h.1 (by omega)).1, (h.1 (by omega)).2, h.2 (by omega) (by omega)⟩

/-- Claim C5 counterexample: on the empty string, `total_lines` is 1, not 0 —
Python's `"".split("\n")` yields one empty line. -/
theorem claim_C5_counterexample :
    (structural_score "").total_lines = 1 ∧ ¬ (structural_score "").total_lines = 0 := by
  decide

/-- Claim C5 (amended): on the empty string the structural score has
`has_description = false`, `num_headings = 0`, `num_code_blocks = 0`,
`num_bullet_points = 0`, `total_length = 0` — but `total_lines = 1`
(splitting the empty string on newline yields one empty line). -/
theorem claim_C5_amended :
    structural_score "" = ⟨0, 0, false, false, false, 0, 0, 1⟩ := by
  rfl

/-- Claim C8: on the concrete input
`"# Title\n\nSome text with ```code``` fence.\n- item one\n- item two"`, the
structural score has 1 heading, 1 code block, no install section, no usage
section, and 2 bullet points. -/
theorem claim_C8_concrete :
    (structural_score c8Text).num_headings = 1 ∧
    (structural_score c8Text).num_code_blocks = 1 ∧
    (structural_score c8Text).has_install_section = false ∧
    (structural_score c8Text).has_usage_section = false ∧
    (structural_score c8Text).num_bullet_points = 2 := by
  refine ⟨?_, ?_, ?_, ?_, ?_⟩ <;> decide

/-- Claim C6: the quality gate accepts a normalized README iff its length is
in [200, 4000], it has at least 2 `#` characters, and at least 50
whitespace-delimited words; in particular length 199 is always rejected,
length 200 with the other two criteria is accepted, and length 4001 is always
rejected. -/
theorem claim_C6_quality_gate :
    (∀ r : String, is_quality_readme r = true ↔
      (200 ≤ r.data.length ∧ r.data.length ≤ 4000 ∧
       2 ≤ countChar '#' r.data ∧ 50 ≤ (pyWords r.data).length)) ∧
    (∀ r : String, r.data.length = 199 → is_quality_readme r = false) ∧
    (∀ r : String, r.data.length = 200 → 2 ≤ countChar '#' r.data →
      50 ≤ (pyWords r.data).length → is_quality_readme r = true) ∧
    (∀ r : String, r.data.length = 4001 → is_quality_readme r = false) := by
  refine ⟨?_, ?_, ?_, ?_⟩
  · intro r
    simp only [is_quality_readme, MAX_README_CHARS]
    split_ifs with h1 h2 h3 h4
    · exact iff_of_false (by simp) (by omega)
    · exact iff_of_false (by simp) (by omega)
    · exact iff_of_false (by simp) (by omega)
    · exact iff_of_false (by simp) (by omega)
    · exact iff_of_true rfl (by omega)
  · intro r h
    simp only [is_quality_readme]
    rw [if_pos (by omega)]
  · intro r h hc hw
    simp only [is_quality_readme, MAX_README_CHARS]
    rw [if_neg (by omega), if_neg (by omega), if_neg (by omega), if_neg (by omega)]
  · intro r h
    simp only [is_quality_readme, MAX_README_CHARS]
    rw [if_neg (by omega), if_pos (by omega)]

/-- Witness for C6 at concrete strings of lengths 199, 200 and 4001. -/
theorem claim_C6_witness :
    is_quality_readme r199 = false ∧ is_quality_readme r200 = true ∧
    is_quality_readme r4001 = false := by
  have h := claim_C6_quality_gate
  refine ⟨h.2.1 r199 ?_, h.2.2.1 r200 ?_ ?_ ?_, h.2.2.2 r4001 ?_⟩
  · show (List.replicate 199 'a').length = 199
    rw [List.length_replicate]
  · decide
  · decide
  · decide
  · show (List.replicate 4001 'a').length = 4001
    rw [List.length_replicate]

theorem pyJoin_append_last (sep m : String) (l : List String) (h : l ≠ []) :
    pyJoin sep (l ++ [m]) = pyJoin sep l ++ sep ++ m := by
  induction l with
  | nil => exact absurd rfl h
  | cons x xs ih =>
    cases xs with
    | nil => rfl
    | cons y ys =>
      have h2 := ih (by simp)
      show pyJoin sep (x :: ((y :: ys) ++ [m])) = pyJoin sep (x :: y :: ys) ++ sep ++ m
      rw [show (x :: ((y :: ys) ++ [m])) = x :: y :: (ys ++ [m]) from rfl]
      rw [show pyJoin sep (x :: y :: (ys ++ [m]))
            = x ++ sep ++ pyJoin sep (y :: (ys ++ [m])) from rfl]
      rw [show (y :: (ys ++ [m])) = (y :: ys) ++ [m] from rfl, h2]
      rw [show pyJoin sep (x :: y :: ys) = x ++ sep ++ pyJoin sep (y :: ys) from rfl]
      simp [String.append_assoc]

theorem mem_insertSorted {y x : String} : ∀ {l : List String},
    y ∈ insertSorted x l ↔ y = x ∨ y ∈ l := by
  intro l
  induction l with
  | nil => simp [insertSorted]
  | cons z zs ih =>
    simp only [insertSorted]
    split
    · simp [List.mem_cons]
    · simp only [List.mem_cons, ih]
      tauto

theorem length_insertSorted (x : String) : ∀ (l : List String),
    (insertSorted x l).length = l.length + 1 := by
  intro l
  induction l with
  | nil => rfl
  | cons z zs ih =>
    simp only [insertSorted]
    split
    · simp
    · simp [ih]

theorem mem_sortStr {y : String} : ∀ {l : List String}, y ∈ sortStr l ↔ y ∈ l := by
  intro l
  induction l with
  | nil => simp [sortStr]
  | cons x xs ih =>
    simp only [sortStr, mem_insertSorted, List.mem_cons, ih]

theorem length_sortStr : ∀ (l : List String), (sortStr l).length = l.length := by
  intro l
  induction l with
  | nil => rfl
  | cons x xs ih => simp only [sortStr, length_insertSorted, ih, List.length_cons]

/-- Claim C7: the file-tree listing keeps exactly the first 80 sorted filtered
entries plus one literal truncation marker line when more than 80 exist, and
all entries with no marker otherwise — in both the dataset-collection variant
(`build_file_tree_string`) and the remote-scan variant (`scan_github_repo`). -/
theorem claim_C7_tree_cap (tree : List TreeItem) :
    (80 < (fileTreePaths tree).length →
      fileTreeLines tree = (fileTreePaths tree).take 80 ++ [truncMarker] ∧
      (fileTreeLines tree).length = 81) ∧
    ((fileTreePaths tree).length ≤ 80 → fileTreeLines tree = fileTreePaths tree) ∧
    (80 < (githubTreePaths tree).length →
      githubFileTree tree = pyJoin "\n" ((githubTreePaths tree).take 80 ++ [truncMarker])) ∧
    ((githubTreePaths tree).length ≤ 80 →
      githubFileTree tree = pyJoin "\n" (githubTreePaths tree)) := by
  refine ⟨?_, ?_, ?_, ?_⟩
  · intro h
    have he : fileTreeLines tree = (fileTreePaths tree).take 80 ++ [truncMarker] := by
      simp only [fileTreeLines]
      rw [if_pos h]
    refine ⟨he, ?_⟩
    rw [he, List.length_append, List.length_take]
    simp only [List.length_cons, List.length_nil]
    omega
  · intro h
    simp only [fileTreeLines]
    rw [if_neg (by omega)]
  · intro h
    simp only [githubFileTree]
    rw [if_pos h, pyJoin_append_last]
    intro heq
    have := congrArg List.length heq
    rw [List.length_take] at this
    simp only [List.length_nil] at this
    omega
  · intro h
    simp only [githubFileTree]
    rw [if_neg (by omega)]

/-- Witness for C7 at a tree of 81 blob entries. -/
theorem claim_C7_witness :
    fileTreeLines tree81 = (fileTreePaths tree81).take 80 ++ [truncMarker] ∧
    (fileTreeLines tree81).length = 81 :=
  (claim_C7_tree_cap tree81).1 (by decide)

theorem dedupKeep_prefix (b : List String) (a : List String) : ∀ (seen : List String),
    ∃ c, dedupKeep seen (a ++ b) = dedupKeep seen a ++ c := by
  induction a with
  | nil => intro seen; exact ⟨dedupKeep seen b, by simp [dedupKeep]⟩
  | cons p a' ih =>
    intro seen
    by_cases hp : p ∈ seen
    · obtain ⟨c, hc⟩ := ih seen
      exact ⟨c, by simp [dedupKeep, hp, hc]⟩
    · obtain ⟨c, hc⟩ := ih (p :: seen)
      exact ⟨c, by simp [dedupKeep, hp, hc]⟩

theorem take_append_left_mem {x : String} {l c : List String} {n : Nat}
    (h : x ∈ l.take n) : x ∈ (l ++ c).take n := by
  rw [List.take_append_eq_append_take]
  exact List.mem_append_left _ h

/-- Claim C9 counterexample: a tree with ten distinct important-file blobs in
front of a root-level `.env.example` blob. The blob is present and important,
yet not selected — the selection is truncated to 10 paths first — so a
root-level `.env.example` blob is NOT always selected. -/
theorem claim_C9_counterexample :
    (TreeItem.mk ".env.example" "blob") ∈ c9Tree ∧
    ".env.example" ∉ select_key_files c9Tree := by
  decide

/-- Claim C9 (amended): the key-file selection applies none of the listing's
exclusion filters: any path among the first 10 deduplicated important-file
paths is selected — even a dotted one such as a root-level `.env.example`,
which never appears in the file-tree listing. (Without the first-10 bound the
claim fails: see the counterexample.) -/
theorem claim_C9_amended (tree : List TreeItem) (p : String)
    (hp : p ∈ (dedupKeep [] (importantPass tree)).take 10) :
    p ∈ select_key_files tree ∧ ".env.example" ∉ fileTreePaths tree := by
  constructor
  · rw [select_key_files]
    obtain ⟨c, hc⟩ := dedupKeep_prefix (codePass tree) (importantPass tree) []
    rw [hc]
    exact take_append_left_mem hp
  · intro hmem
    rw [fileTreePaths, mem_sortStr] at hmem
    obtain ⟨item, hitem, hif⟩ := List.mem_filterMap.mp hmem
    by_cases hk : prepareTreeKeep item = true
    · rw [if_pos hk] at hif
      have hpath : item.path = ".env.example" := Option.some.inj hif
      rw [prepareTreeKeep, hpath] at hk
      have hseg : (splitOnChar '/' (String.data ".env.example")).any startsDot = true := by
        decide
      simp [hseg] at hk
    · rw [if_neg hk] at hif
      exact Option.noConfusion hif

/-- Witness for C9 (amended): a tree holding only a root-level `.env.example`
blob — it is selected, and absent from the file-tree listing. -/
theorem claim_C9_witness :
    ".env.example" ∈ select_key_files c9SmallTree ∧
    ".env.example" ∉ fileTreePaths c9SmallTree :=
  claim_C9_amended c9SmallTree ".env.example" (by decide)

theorem filterMapPath_sublist (f : TreeItem → Bool) (tree : List TreeItem) :
    (tree.filterMap (fun item => if f item then some item.path else none)).Sublist
      (tree.map TreeItem.path) := by
  induction tree with
  | nil => simp
  | cons item rest ih =>
    simp only [List.filterMap_cons, List.map_cons]
    by_cases h : f item = true
    · rw [if_pos h]
      exact List.Sublist.cons₂ _ ih
    · rw [if_neg h]
      exact List.Sublist.cons _ ih

theorem dedupKeep_congr (l : List String) : ∀ (s1 s2 : List String),
    (∀ x, x ∈ s1 ↔ x ∈ s2) → dedupKeep s1 l = dedupKeep s2 l := by
  induction l with
  | nil => intros; rfl
  | cons p ps ih =>
    intro s1 s2 h
    simp only [dedupKeep]
    by_cases hp : p ∈ s1
    · rw [if_pos hp, if_pos ((h p).mp hp)]
      exact ih s1 s2 h
    · rw [if_neg hp, if_neg (fun hc => hp ((h p).mpr hc))]
      rw [ih (p :: s1) (p :: s2) (by intro x; simp [List.mem_cons, h x])]

theorem dedupKeep_nodup_filter (l : List String) : ∀ (seen : List String), l.Nodup →
    dedupKeep seen l = l.filter (fun x => decide (x ∉ seen)) := by
  induction l with
  | nil => intros; rfl
  | cons p ps ih =>
    intro seen hnd
    have hp' : p ∉ ps := (List.nodup_cons.mp hnd).1
    have hnd' : ps.Nodup := (List.nodup_cons.mp hnd).2
    simp only [dedupKeep, List.filter_cons]
    by_cases hp : p ∈ seen
    · rw [if_pos hp, ih seen hnd', if_neg (by simpa using hp)]
    · rw [if_neg hp, ih (p :: seen) hnd', if_pos (by simpa using hp)]
      congr 1
      apply List.filter_congr
      intro x hx
      have hxp : x ≠ p := fun he => hp' (he ▸ hx)
      simp [List.mem_cons, hxp]

theorem dedupKeep_append_nodup (b : List String) (a : List String) : ∀ (seen : List String),
    a.Nodup → (∀ x ∈ a, x ∉ seen) →
    dedupKeep seen (a ++ b) = a ++ dedupKeep (a.reverse ++ seen) b := by
  induction a with
  | nil => intro seen _ _; simp
  | cons p a' ih =>
    intro seen hnd hdisj
    have hp : p ∉ seen := hdisj p (List.mem_cons_self _ _)
    simp only [List.cons_append, dedupKeep]
    rw [if_neg hp]
    have hih := ih (p :: seen) (List.nodup_cons.mp hnd).2 (by
      intro x hx
      have hxp : x ≠ p := fun he => (List.nodup_cons.mp hnd).1 (he ▸ hx)
      simp only [List.mem_cons, hxp, false_or]
      exact fun hc => hdisj x (List.mem_cons_of_mem _ hx) hc)
    rw [show a'.append b = a' ++ b from rfl, hih]
    simp [List.reverse_cons, List.append_assoc]

theorem select_normal (tree : List TreeItem) (hnd : (tree.map TreeItem.path).Nodup) :
    select_key_files tree
      = (importantPass tree
          ++ (codePass tree).filter (fun q => decide (q ∉ importantPass tree))).take 10 := by
  have himp : (importantPass tree).Nodup :=
    List.Nodup.sublist (filterMapPath_sublist _ tree) hnd
  have hcode : (codePass tree).Nodup :=
    List.Nodup.sublist (filterMapPath_sublist _ tree) hnd
  rw [select_key_files,
    dedupKeep_append_nodup (codePass tree) (importantPass tree) [] himp (by simp),
    dedupKeep_nodup_filter _ _ hcode]
  congr 2
  apply List.filter_congr
  intro x _
  simp [List.mem_reverse]

theorem githubSecondPass_eq (tree : List TreeItem) : ∀ (kf : List String),
    (codePass tree).Nodup →
    githubSecondPass kf tree = kf ++ (codePass tree).filter (fun q => decide (q ∉ kf)) := by
  induction tree with
  | nil => intro kf _; simp [githubSecondPass, codePass]
  | cons item rest ih =>
    intro kf hnd
    by_cases hc : isCodeBlob item = true
    · have hcode : codePass (item :: rest) = item.path :: codePass rest := by
        simp only [codePass, List.filterMap_cons]
        rw [if_pos hc]
      rw [hcode] at hnd ⊢
      have hnotin : item.path ∉ codePass rest := (List.nodup_cons.mp hnd).1
      have hnd' : (codePass rest).Nodup := (List.nodup_cons.mp hnd).2
      simp only [githubSecondPass]
      by_cases hm : item.path ∈ kf
      · rw [if_neg (fun hcond => hcond.2 hm), ih kf hnd', List.filter_cons,
          if_neg (by simpa using hm)]
      · rw [if_pos ⟨hc, hm⟩, ih (kf ++ [item.path]) hnd', List.filter_cons,
          if_pos (by simpa using hm)]
        rw [List.append_assoc, List.singleton_append]
        congr 2
        apply List.filter_congr
        intro x hx
        have hxp : x ≠ item.path := fun he => hnotin (he ▸ hx)
        simp [List.mem_append, hxp]
    · have hcode : codePass (item :: rest) = codePass rest := by
        simp only [codePass, List.filterMap_cons]
        rw [if_neg hc]
      rw [hcode] at hnd ⊢
      simp only [githubSecondPass]
      rw [if_neg (fun hcond => hc hcond.1)]
      exact ih kf hnd

theorem githubSelect_eq_select (tree : List TreeItem)
    (hnd : (tree.map TreeItem.path).Nodup) :
    githubSelect tree = select_key_files tree := by
  have hcode : (codePass tree).Nodup :=
    List.Nodup.sublist (filterMapPath_sublist _ tree) hnd
  rw [githubSelect,
    show githubFirstPass tree = importantPass tree from rfl,
    githubSecondPass_eq tree (importantPass tree) hcode,
    select_normal tree hnd]

/-- Claim C4 counterexample: the three call-site implementations are NOT
output-identical on identical trees and contents. On a tree whose path
contains `.egg-info`, the dataset-collection listing filters it out while the
remote-scan listing keeps it; and on a non-sorted two-blob tree the local scan
(which sorts the file list before selecting) joins its snippets in a
different order than the dataset-collection path (which selects in tree
order). -/
theorem claim_C4_counterexample :
    (prepareExtract eggTree idContents).1 ≠ (githubExtract eggTree idContents).1 ∧
    (prepareExtract baTree idContents).2.2 ≠ (localExtract (blobPaths baTree) idContents).2.2 := by
  decide

/-- Claim C4 (amended): on identical trees with distinct paths and identical
per-path contents, the dataset-collection path and the remote-scan path
produce the identical selection and identical joined snippet string, and —
provided no entry's path contains `.egg-info` — the identical file-tree
string as well. The local-scan path is not output-identical to them in
general (it sorts the walked file list before selection and applies no
per-path filtering to its listing); see the counterexample. -/
theorem claim_C4_amended (tree : List TreeItem) (contents : String → Option String)
    (hnd : (tree.map TreeItem.path).Nodup) :
    githubSelect tree = select_key_files tree ∧
    (githubExtract tree contents).2.2 = (prepareExtract tree contents).2.2 ∧
    ((∀ item ∈ tree, containsSub eggInfoNeedle item.path.data = false) →
      githubFileTree tree = build_file_tree_string tree) := by
  have hsel := githubSelect_eq_select tree hnd
  refine ⟨hsel, ?_, ?_⟩
  · simp only [githubExtract, prepareExtract, build_code_snippets]
    rw [hsel, githubSnippetsGo_eq]
  · intro hegg
    have hkeep : ∀ item ∈ tree, prepareTreeKeep item = githubTreeKeep item := by
      intro item hit
      rw [prepareTreeKeep, githubTreeKeep, hegg item hit]
      simp
    have hpaths : fileTreePaths tree = githubTreePaths tree := by
      rw [fileTreePaths, githubTreePaths]
      congr 1
      apply List.filterMap_congr
      intro item hit
      rw [hkeep item hit]
    rw [build_file_tree_string, fileTreeLines]
    simp only [githubFileTree]
    rw [← hpaths]
    by_cases hlen : 80 < (fileTreePaths tree).length
    · rw [if_pos hlen, if_pos hlen,
        pyJoin_append_last "\n" truncMarker ((fileTreePaths tree).take 80) ?_]
      intro heq
      have hl := congrArg List.length heq
      rw [List.length_take] at hl
      simp only [List.length_nil] at hl
      omega
    · rw [if_neg hlen, if_neg hlen]

/-- Witness for C4 (amended) at a concrete mixed tree with distinct paths and
no `.egg-info`. -/
theorem claim_C4_witness :
    githubSelect wTree4 = select_key_files wTree4 ∧
    (githubExtract wTree4 idContents).2.2 = (prepareExtract wTree4 idContents).2.2 ∧
    githubFileTree wTree4 = build_file_tree_string wTree4 := by
  have h := claim_C4_amended wTree4 idContents (by decide)
  exact ⟨h.1, h.2.1, h.2.2 (by decide)⟩

/-- Claim C10: every record `process_repo` produces has a non-empty
`code_snippets` string and a `readme_content` equal to the
`clean_readme`-normalized text of a README found in the tree that passes the
quality gate; and whenever no README is found, its fetch fails, the gate
rejects it, or the snippet string is empty, no record is produced. -/
theorem claim_C10_invariants (info : RepoInfo) (treeBody : List TreeItem)
    (contents : String → Option String) :
    (∀ (treeStatus : Nat) (ex : CuratedExample),
      process_repo info treeStatus treeBody contents = some ex →
      ex.code_snippets ≠ "" ∧
      ∃ rp raw, findReadmePath treeBody = some rp ∧ contents rp = some raw ∧
        ex.readme_content = clean_readme raw ∧
        is_quality_readme (clean_readme raw) = true) ∧
    (findReadmePath treeBody = none → process_repo info 200 treeBody contents = none) ∧
    (∀ rp, findReadmePath treeBody = some rp → contents rp = none →
      process_repo info 200 treeBody contents = none) ∧
    (∀ rp raw, findReadmePath treeBody = some rp → contents rp = some raw →
      is_quality_readme (clean_readme raw) = false →
      process_repo info 200 treeBody contents = none) ∧
    (∀ rp raw, findReadmePath treeBody = some rp → contents rp = some raw →
      build_code_snippets contents (select_key_files treeBody) = "" →
      process_repo info 200 treeBody contents = none) := by
  have h200 : ¬ ((200 : Nat) ≠ 200) := fun h => h rfl
  refine ⟨?_, ?_, ?_, ?_, ?_⟩
  · intro st ex hex
    rw [process_repo, get_repo_tree] at hex
    by_cases hst : st ≠ 200
    · rw [if_pos hst] at hex
      exact Option.noConfusion hex
    · rw [if_neg hst] at hex
      dsimp only at hex
      cases hf : findReadmePath treeBody with
      | none => rw [hf] at hex; exact Option.noConfusion hex
      | some rp =>
        rw [hf] at hex
        dsimp only at hex
        cases hc : contents rp with
        | none => rw [hc] at hex; exact Option.noConfusion hex
        | some raw =>
          rw [hc] at hex
          dsimp only at hex
          by_cases hq : is_quality_readme (clean_readme raw) = true
          · by_cases hs : build_code_snippets contents (select_key_files treeBody) = ""
            · simp only [hq, if_true, hs, if_pos] at hex
              exact Option.noConfusion hex
            · simp only [hq, if_true, hs] at hex
              rw [if_neg not_false] at hex
              have hrec := Option.some.inj hex
              refine ⟨?_, rp, raw, rfl, hc, ?_, hq⟩
              · rw [← hrec]
                exact hs
              · rw [← hrec]
          · simp only [hq] at hex
            simp at hex
  · intro hf
    rw [process_repo, get_repo_tree, if_neg h200]
    dsimp only
    rw [hf]
  · intro rp hf hc
    rw [process_repo, get_repo_tree, if_neg h200]
    dsimp only
    rw [hf]
    dsimp only
    rw [hc]
  · intro rp raw hf hc hq
    rw [process_repo, get_repo_tree, if_neg h200]
    dsimp only
    rw [hf]
    dsimp only
    rw [hc]
    simp [hq]
  · intro rp raw hf hc hs
    rw [process_repo, get_repo_tree, if_neg h200]
    dsimp only
    rw [hf]
    dsimp only
    rw [hc]
    by_cases hq : is_quality_readme (clean_readme raw) = true <;> simp [hq, hs]

/-- Witness for C10: a concrete successful run of `process_repo` on a
two-entry tree with a quality README, applying the invariant theorem to its
produced record. -/
theorem claim_C10_witness :
    wEx.code_snippets ≠ "" ∧
    ∃ rp raw, findReadmePath wTree10 = some rp ∧ wContents rp = some raw ∧
      wEx.readme_content = clean_readme raw ∧
      is_quality_readme (clean_readme raw) = true :=
  (claim_C10_invariants wInfo wTree10 wContents).1 200 wEx (by decide)
